import Mathlib

/-!
Verification of the FIX-to-CSV converter (`fix_to_csv.py`).

Strings are modelled as `List Char`; Python dictionaries are modelled as
association lists where a fresh binding is prepended, so the first matching
key found by lookup is the most recently written one (last-write-wins, the
observable semantics of `d[k] = v` followed by `d.get(k)`).
-/

abbrev Str := List Char

/-- Python `str.isspace`-style ASCII whitespace, the characters stripped by
`str.strip()` and split on by `str.split()` for the inputs this tool sees. -/
def pyIsSpace (c : Char) : Bool :=
  c = ' ' || c = '\t' || c = '\n' || c = '\r' || c = '\x0B' || c = '\x0C'

/-- Python `line.strip()`: drop whitespace from both ends. -/
def pyStrip (l : Str) : Str :=
  ((l.dropWhile pyIsSpace).reverse.dropWhile pyIsSpace).reverse

/-- Python `raw_line.rstrip(chr(10))`: drop every trailing newline. -/
def pyRstripNl (l : Str) : Str :=
  (l.reverse.dropWhile (fun c => c = '\n')).reverse

/-- Split at every character satisfying `p`, keeping empty pieces
(the semantics of Python `s.split(sep)` for a one-character `sep`,
with `p` the test against that separator). -/
def pySplitBy (p : Char → Bool) : Str → List Str
  | [] => [[]]
  | c :: rest =>
    if p c then [] :: pySplitBy p rest
    else
      match pySplitBy p rest with
      | [] => [[c]]
      | t :: ts => (c :: t) :: ts

/-- Python `s.split(sep)` for a single-character separator. -/
def pySplitChar (sep : Char) (l : Str) : List Str :=
  pySplitBy (fun c => c = sep) l

/-- Python `s.split()` with no argument: split on runs of whitespace,
discarding empty pieces. -/
def pySplitWs (l : Str) : List Str :=
  (pySplitBy pyIsSpace l).filter (fun t => !t.isEmpty)

/-- Python `p.split(c, 1)` restricted to the case `c = '='` present in `p`:
split on the first `=` only, the remainder (which may itself contain `=`)
becomes the value. -/
def pySplitEq1 : Str → Str × Str
  | [] => ([], [])
  | c :: rest =>
    if c = '=' then ([], rest)
    else
      let tv := pySplitEq1 rest
      (c :: tv.1, tv.2)

/-- `SOH_CHARS` from the source: the known separators that may appear in FIX
logs, in priority order. `'\u0001'` is the same character as `'\x01'`. -/
def SOH_CHARS : List Char := ['\x01', '\u0001', '|']

/-- The separator-detection loop of `split_fix_message`: walk the candidate
list and return the first candidate occurring anywhere in the line. -/
def findSep : List Char → Str → Option Char
  | [], _ => none
  | c :: cs, line => if c ∈ line then some c else findSep cs line

/-- A decoded message: identifier-to-value bindings, newest first. -/
abbrev Fields := List (Str × Str)

/-- Python `d.get(k)`: the value of the most recent binding of `k`, if any. -/
def pyGet {α : Type} : List (Str × α) → Str → Option α
  | [], _ => none
  | (k', v) :: rest, k => if k' = k then some v else pyGet rest k

/-- Python `d.get(k, s)` where s is the empty string. -/
def getD (m : Fields) (k : Str) : Str :=
  (pyGet m k).getD []

/-- The token loop of `split_fix_message`: skip empty tokens and tokens with
no `=`; otherwise split on the first `=` and bind tag to value. -/
def decodeFields (fields : Fields) : List Str → Fields
  | [] => fields
  | part :: rest =>
    if part = [] then decodeFields fields rest
    else if '=' ∈ part then
      decodeFields (((pySplitEq1 part).1, (pySplitEq1 part).2) :: fields) rest
    else decodeFields fields rest

/-- The tokenizing phase of `split_fix_message`: pick the separator with
`findSep`; split the stripped line on it, or on whitespace when none found. -/
def tokenize (line : Str) : List Str :=
  match findSep SOH_CHARS line with
  | none => pySplitWs (pyStrip line)
  | some sep => pySplitChar sep (pyStrip line)

/-- `split_fix_message`: parse one FIX line into tag-value bindings. -/
def split_fix_message (line : Str) : Fields :=
  decodeFields [] (tokenize line)

/-- The fields of the dictionary stored in `orders[cl_ord_id]` for a
NewOrderSingle: tags 11, 60, 55, 54, 38, 44. -/
structure Pending where
  clOrdId : Str
  transactTime : Str
  symbol : Str
  side : Str
  orderQty : Str
  limitPrice : Str
deriving DecidableEq

/-- Build the stored order record from a decoded NewOrderSingle message,
each field defaulting to the empty string. -/
def mkPending (m : Fields) (cl : Str) : Pending :=
  { clOrdId := cl
  , transactTime := getD m ['6', '0']
  , symbol := getD m ['5', '5']
  , side := getD m ['5', '4']
  , orderQty := getD m ['3', '8']
  , limitPrice := getD m ['4', '4'] }

/-- Python `a or b` on strings: `b` when `a` is empty, else `a`. -/
def por (a b : Str) : Str :=
  if a = [] then b else a

/-- The nine-cell CSV data row written for a matched fill, in column order. -/
def mkRow (cl : Str) (ord : Pending) (m : Fields) : List Str :=
  [ cl
  , ord.transactTime
  , getD m ['6', '0']
  , por ord.symbol (getD m ['5', '5'])
  , por ord.side (getD m ['5', '4'])
  , por ord.orderQty (getD m ['3', '8'])
  , por ord.limitPrice (getD m ['4', '4'])
  , getD m ['6']
  , getD m ['3', '0'] ]

/-- The fixed CSV header of `process_fix_file`. -/
def csv_header : List Str :=
  [ "OrderID".data
  , "OrderTransactTime".data
  , "ExecutionTransactTime".data
  , "Symbol".data
  , "Side".data
  , "OrderQty".data
  , "LimitPrice".data
  , "AvgPx".data
  , "LastMkt".data ]

/-- The state of `process_fix_file`'s loop: the `orders` store (newest
binding first, like `Fields`) and the data rows written so far. -/
structure PState where
  orders : List (Str × Pending)
  rows : List (List Str)
deriving DecidableEq

/-- The decoded message of a raw input line, after stripping trailing
newlines as the loop body does. -/
def msgOf (raw : Str) : Fields :=
  split_fix_message (pyRstripNl raw)

/-- One iteration of `process_fix_file`'s loop on one raw line.
Empty lines are skipped.  `if not cl_ord_id` in the source treats a missing
tag and an empty-string tag alike, hence the explicit `cl = []` tests.
`if not order` in the source can only be true when the lookup misses,
since every stored dictionary is non-empty. -/
def step (st : PState) (raw : Str) : PState :=
  if pyRstripNl raw = [] then st
  else if pyGet (msgOf raw) ['3', '5'] = some ['D'] then
    match pyGet (msgOf raw) ['1', '1'] with
    | none => st
    | some cl =>
      if cl = [] then st
      else { st with orders := (cl, mkPending (msgOf raw) cl) :: st.orders }
  else if pyGet (msgOf raw) ['3', '5'] = some ['8'] then
    if pyGet (msgOf raw) ['1', '5', '0'] ≠ some ['2']
        ∨ pyGet (msgOf raw) ['3', '9'] ≠ some ['2']
        ∨ pyGet (msgOf raw) ['4', '0'] ≠ some ['2'] then st
    else
      match pyGet (msgOf raw) ['1', '1'] with
      | none => st
      | some cl =>
        if cl = [] then st
        else
          match pyGet st.orders cl with
          | none => st
          | some ord => { st with rows := st.rows ++ [mkRow cl ord (msgOf raw)] }
  else st

/-- `process_fix_file` over a whole stream of raw lines: the final loop state,
starting from an empty store and no data rows. -/
def processLines (lines : List Str) : PState :=
  List.foldl step { orders := [], rows := [] } lines

/-- The full CSV output: the header row written once up front, then the data
rows in the order they were matched. -/
def processOutput (lines : List Str) : List (List Str) :=
  csv_header :: (processLines lines).rows

/-- The three sub-conditions an ExecutionReport must satisfy to qualify:
ExecType (150) = 2, OrdStatus (39) = 2, OrdType (40) = 2. -/
def Qualifies (m : Fields) : Prop :=
  pyGet m ['1', '5', '0'] = some ['2']
    ∧ pyGet m ['3', '9'] = some ['2']
    ∧ pyGet m ['4', '0'] = some ['2']

instance (m : Fields) : Decidable (Qualifies m) := by
  unfold Qualifies; infer_instance

/-- The correlation identifier cell of an emitted row (its first cell). -/
def rowId (r : List Str) : Str :=
  r.headD []

/-- A NewOrderSingle line and a qualifying full-fill ExecutionReport line for
the same correlation identifier, used as concrete inputs. -/
def dLine : Str := "35=D|11=A1|60=T0|55=XYZ|54=1|38=100|44=10.50".data

def eLine : Str := "35=8|11=A1|60=T1|150=2|39=2|40=2|6=10.40|30=NASD".data

/-- A second NewOrderSingle for the same correlation identifier as `dLine`,
with different field values. -/
def dLine2 : Str := "35=D|11=A1|60=T2|55=ABC|54=2|38=50|44=9.99".data

/-- The pending order captured from `dLine`. -/
def pd1 : Pending := mkPending (msgOf dLine) ("A1".data)

/-- A loop state holding exactly the pending order of `dLine`. -/
def st1 : PState := { orders := [("A1".data, pd1)], rows := [] }

lemma msg_line_ne {raw : Str} {v : Str}
    (h : pyGet (msgOf raw) ['3', '5'] = some v) : pyRstripNl raw ≠ [] := by
  intro hl
  unfold msgOf at h
  rw [hl] at h
  have he : split_fix_message ([] : Str) = [] := by decide
  rw [he] at h
  simp [pyGet] at h

lemma step_newOrder (st : PState) (raw cl : Str)
    (h35 : pyGet (msgOf raw) ['3', '5'] = some ['D'])
    (h11 : pyGet (msgOf raw) ['1', '1'] = some cl) (hcl : cl ≠ []) :
    step st raw
      = { st with orders := (cl, mkPending (msgOf raw) cl) :: st.orders } := by
  unfold step
  rw [if_neg (msg_line_ne h35), if_pos h35, h11]
  simp [hcl]

lemma step_newOrder_skip (st : PState) (raw : Str)
    (h35 : pyGet (msgOf raw) ['3', '5'] = some ['D'])
    (h11 : pyGet (msgOf raw) ['1', '1'] = none
        ∨ pyGet (msgOf raw) ['1', '1'] = some []) :
    step st raw = st := by
  unfold step
  rw [if_neg (msg_line_ne h35), if_pos h35]
  rcases h11 with h11 | h11 <;> simp [h11]

lemma exec_branch_cond (raw : Str)
    (h35 : pyGet (msgOf raw) ['3', '5'] = some ['8']) :
    pyGet (msgOf raw) ['3', '5'] ≠ some ['D'] := by
  rw [h35]; decide

lemma step_exec_fail (st : PState) (raw : Str)
    (h35 : pyGet (msgOf raw) ['3', '5'] = some ['8'])
    (hq : ¬ Qualifies (msgOf raw)) :
    step st raw = st := by
  unfold step
  rw [if_neg (msg_line_ne h35), if_neg (exec_branch_cond raw h35), if_pos h35]
  rw [if_pos (by unfold Qualifies at hq; tauto)]

lemma step_exec_skip_cond (raw : Str) (hq : Qualifies (msgOf raw)) :
    ¬ (pyGet (msgOf raw) ['1', '5', '0'] ≠ some ['2']
        ∨ pyGet (msgOf raw) ['3', '9'] ≠ some ['2']
        ∨ pyGet (msgOf raw) ['4', '0'] ≠ some ['2']) := by
  unfold Qualifies at hq; tauto

lemma step_exec_noid (st : PState) (raw : Str)
    (h35 : pyGet (msgOf raw) ['3', '5'] = some ['8'])
    (hq : Qualifies (msgOf raw))
    (h11 : pyGet (msgOf raw) ['1', '1'] = none
        ∨ pyGet (msgOf raw) ['1', '1'] = some []) :
    step st raw = st := by
  unfold step
  rw [if_neg (msg_line_ne h35), if_neg (exec_branch_cond raw h35), if_pos h35]
  rw [if_neg (step_exec_skip_cond raw hq)]
  rcases h11 with h11 | h11 <;> simp [h11]

lemma step_exec_nomatch (st : PState) (raw cl : Str)
    (h35 : pyGet (msgOf raw) ['3', '5'] = some ['8'])
    (hq : Qualifies (msgOf raw))
    (h11 : pyGet (msgOf raw) ['1', '1'] = some cl) (hcl : cl ≠ [])
    (ho : pyGet st.orders cl = none) :
    step st raw = st := by
  unfold step
  rw [if_neg (msg_line_ne h35), if_neg (exec_branch_cond raw h35), if_pos h35]
  rw [if_neg (step_exec_skip_cond raw hq), h11]
  simp [hcl, ho]

lemma step_exec_match (st : PState) (raw cl : Str) (p : Pending)
    (h35 : pyGet (msgOf raw) ['3', '5'] = some ['8'])
    (hq : Qualifies (msgOf raw))
    (h11 : pyGet (msgOf raw) ['1', '1'] = some cl) (hcl : cl ≠ [])
    (ho : pyGet st.orders cl = some p) :
    step st raw = { st with rows := st.rows ++ [mkRow cl p (msgOf raw)] } := by
  unfold step
  rw [if_neg (msg_line_ne h35), if_neg (exec_branch_cond raw h35), if_pos h35]
  rw [if_neg (step_exec_skip_cond raw hq), h11]
  simp [hcl, ho]

lemma step_empty_line (st : PState) (raw : Str) (hl : pyRstripNl raw = []) :
    step st raw = st := by
  unfold step; rw [if_pos hl]

lemma step_other (st : PState) (raw : Str) (hl : pyRstripNl raw ≠ [])
    (hD : pyGet (msgOf raw) ['3', '5'] ≠ some ['D'])
    (h8 : pyGet (msgOf raw) ['3', '5'] ≠ some ['8']) :
    step st raw = st := by
  unfold step; rw [if_neg hl, if_neg hD, if_neg h8]

lemma step_rows_cases (st : PState) (raw : Str) :
    (step st raw).rows = st.rows ∨
      ∃ cl p, pyGet st.orders cl = some p ∧
        (step st raw).rows = st.rows ++ [mkRow cl p (msgOf raw)] := by
  by_cases hl : pyRstripNl raw = []
  · left; rw [step_empty_line st raw hl]
  by_cases hD : pyGet (msgOf raw) ['3', '5'] = some ['D']
  · left
    cases h11 : pyGet (msgOf raw) ['1', '1'] with
    | none => rw [step_newOrder_skip st raw hD (Or.inl h11)]
    | some cl =>
      by_cases hcl : cl = []
      · subst hcl; rw [step_newOrder_skip st raw hD (Or.inr h11)]
      · rw [step_newOrder st raw cl hD h11 hcl]
  by_cases h8 : pyGet (msgOf raw) ['3', '5'] = some ['8']
  case neg => left; rw [step_other st raw hl hD h8]
  by_cases hq : Qualifies (msgOf raw)
  case neg => left; rw [step_exec_fail st raw h8 hq]
  cases h11 : pyGet (msgOf raw) ['1', '1'] with
  | none => left; rw [step_exec_noid st raw h8 hq (Or.inl h11)]
  | some cl =>
    by_cases hcl : cl = []
    · subst hcl; left; rw [step_exec_noid st raw h8 hq (Or.inr h11)]
    · cases ho : pyGet st.orders cl with
      | none => left; rw [step_exec_nomatch st raw cl h8 hq h11 hcl ho]
      | some p =>
        right
        exact ⟨cl, p, ho, by rw [step_exec_match st raw cl p h8 hq h11 hcl ho]⟩

lemma step_orders_cases (st : PState) (raw : Str) :
    (step st raw).orders = st.orders ∨
      ∃ cl, cl ≠ [] ∧ pyGet (msgOf raw) ['3', '5'] = some ['D'] ∧
        pyGet (msgOf raw) ['1', '1'] = some cl ∧
        (step st raw).orders = (cl, mkPending (msgOf raw) cl) :: st.orders := by
  by_cases hl : pyRstripNl raw = []
  · left; rw [step_empty_line st raw hl]
  by_cases hD : pyGet (msgOf raw) ['3', '5'] = some ['D']
  · cases h11 : pyGet (msgOf raw) ['1', '1'] with
    | none => left; rw [step_newOrder_skip st raw hD (Or.inl h11)]
    | some cl =>
      by_cases hcl : cl = []
      · subst hcl; left; rw [step_newOrder_skip st raw hD (Or.inr h11)]
      · right
        exact ⟨cl, hcl, hD, rfl, by rw [step_newOrder st raw cl hD h11 hcl]⟩
  left
  by_cases h8 : pyGet (msgOf raw) ['3', '5'] = some ['8']
  case neg => rw [step_other st raw hl hD h8]
  by_cases hq : Qualifies (msgOf raw)
  case neg => rw [step_exec_fail st raw h8 hq]
  cases h11 : pyGet (msgOf raw) ['1', '1'] with
  | none => rw [step_exec_noid st raw h8 hq (Or.inl h11)]
  | some cl =>
    by_cases hcl : cl = []
    · subst hcl; rw [step_exec_noid st raw h8 hq (Or.inr h11)]
    · cases ho : pyGet st.orders cl with
      | none => rw [step_exec_nomatch st raw cl h8 hq h11 hcl ho]
      | some p => rw [step_exec_match st raw cl p h8 hq h11 hcl ho]

lemma foldl_rows_mono (lines : List Str) :
    ∀ st : PState, ∃ t, (List.foldl step st lines).rows = st.rows ++ t := by
  induction lines with
  | nil => intro st; exact ⟨[], by simp⟩
  | cons a as ih =>
    intro st
    obtain ⟨t, ht⟩ := ih (step st a)
    rcases step_rows_cases st a with h | ⟨cl, p, _, h⟩
    · exact ⟨t, by simpa [h] using ht⟩
    · exact ⟨mkRow cl p (msgOf a) :: t, by simp only [List.foldl_cons] at *; rw [ht, h]; simp⟩

lemma foldl_orders_provenance (lines : List Str) :
    ∀ (st : PState) (k : Str) (p : Pending),
      pyGet (List.foldl step st lines).orders k = some p →
      pyGet st.orders k = some p ∨
        ∃ l ∈ lines, pyGet (msgOf l) ['3', '5'] = some ['D'] ∧
          pyGet (msgOf l) ['1', '1'] = some k := by
  induction lines with
  | nil => intro st k p h; exact Or.inl h
  | cons a as ih =>
    intro st k p h
    rcases ih (step st a) k p h with h' | ⟨l, hl, hprop⟩
    · rcases step_orders_cases st a with ho | ⟨cl, _, hD, h11, ho⟩
      · rw [ho] at h'; exact Or.inl h'
      · rw [ho] at h'
        by_cases hk : cl = k
        · subst hk; exact Or.inr ⟨a, by simp, hD, h11⟩
        · rw [pyGet, if_neg hk] at h'; exact Or.inl h'
    · exact Or.inr ⟨l, by simp [hl], hprop⟩

lemma pySplitEq1_append (tag value : Str) (h : '=' ∉ tag) :
    pySplitEq1 (tag ++ '=' :: value) = (tag, value) := by
  induction tag with
  | nil => simp [pySplitEq1]
  | cons c cs ih =>
    have hc : ¬ (c = '=') := fun e => h (by simp [e])
    have hcs : '=' ∉ cs := fun m => h (by simp [m])
    simp [pySplitEq1, hc, ih hcs]

lemma decodeFields_skip_all (fields : Fields) (parts : List Str)
    (h : ∀ t ∈ parts, '=' ∉ t) : decodeFields fields parts = fields := by
  induction parts with
  | nil => rfl
  | cons t rest ih =>
    have hmem : '=' ∉ t := h t (by simp)
    have hrest : ∀ u ∈ rest, '=' ∉ u := fun u hu => h u (by simp [hu])
    by_cases ht : t = []
    · simp [decodeFields, ht, ih hrest]
    · simp [decodeFields, ht, hmem, ih hrest]

/-- C9: decoding the SOH-delimited line `A=1·B=2·` and the pipe-delimited
line `A=1|B=2|` yields identical identifier-to-value mappings; the common
mapping binds A to 1 and B to 2. -/
theorem separator_independence :
    split_fix_message ("A=1\x01B=2\x01".data) = split_fix_message ("A=1|B=2|".data)
  ∧ split_fix_message ("A=1\x01B=2\x01".data) = [(['B'], ['2']), (['A'], ['1'])] := by
  decide

/-- C2: the tokenizer selects the first candidate of `SOH_CHARS` occurring
anywhere in the line, in priority order (the 0x01 control character, whose
alternate encoding is the very same character, before the visible pipe),
splits the stripped line on it, and falls back to splitting on runs of
whitespace when no candidate occurs. -/
theorem tokenizer_priority_order (line : Str) :
    ('\x01' ∈ line → tokenize line = pySplitChar '\x01' (pyStrip line))
  ∧ ('\x01' ∉ line → '|' ∈ line → tokenize line = pySplitChar '|' (pyStrip line))
  ∧ ('\x01' ∉ line → '|' ∉ line → tokenize line = pySplitWs (pyStrip line))
  ∧ ('\u0001' ∈ line ↔ '\x01' ∈ line) := by
  refine ⟨fun h => ?_, fun h1 h2 => ?_, fun h1 h2 => ?_, Iff.rfl⟩
  · simp [tokenize, SOH_CHARS, findSep, h]
  · simp [tokenize, SOH_CHARS, findSep, h1, h2]
  · simp [tokenize, SOH_CHARS, findSep, h1, h2]

/-- C2 witness: a line in which the pipe occurs first and more often is
still split on the 0x01 control character. -/
theorem tokenizer_priority_order_witness :
    tokenize ("a=1|b=2\x01c=3|".data)
      = pySplitChar '\x01' (pyStrip ("a=1|b=2\x01c=3|".data)) :=
  (tokenizer_priority_order _).1 (by decide)

/-- C3: the decoder drops empty tokens, drops tokens containing no `=`,
splits every other token on its first `=` only (the value may itself contain
`=`, and the identifier is not validated); a line with no recognized
separator and no `=`-bearing whitespace token decodes to the empty mapping. -/
theorem decoder_token_rules (line : Str) (fields : Fields) (rest : List Str)
    (tag value : Str) :
    (decodeFields fields ([] :: rest) = decodeFields fields rest)
  ∧ (∀ t : Str, '=' ∉ t → decodeFields fields (t :: rest) = decodeFields fields rest)
  ∧ ('=' ∉ tag →
      decodeFields fields ((tag ++ '=' :: value) :: rest)
        = decodeFields ((tag, value) :: fields) rest)
  ∧ ((∀ c ∈ SOH_CHARS, c ∉ line) →
      (∀ t ∈ pySplitWs (pyStrip line), '=' ∉ t) →
      split_fix_message line = []) := by
  refine ⟨by simp [decodeFields], fun t ht => ?_, fun htag => ?_, fun hsep htok => ?_⟩
  · by_cases h0 : t = []
    · simp [decodeFields, h0]
    · simp [decodeFields, h0, ht]
  · have hne : tag ++ '=' :: value ≠ [] := by
      cases tag <;> simp
    have hmem : '=' ∈ tag ++ '=' :: value := by simp
    simp [decodeFields, hne, hmem, pySplitEq1_append tag value htag]
  · have h1 : '\x01' ∉ line := hsep '\x01' (by decide)
    have h2 : '|' ∈ SOH_CHARS := by decide
    have htk : tokenize line = pySplitWs (pyStrip line) := by
      simp [tokenize, SOH_CHARS, findSep, h1, hsep '|' h2]
    rw [split_fix_message, htk]
    exact decodeFields_skip_all [] _ htok

/-- C3 witness: each rule of the decoder at a concrete input, and a
separator-free, `=`-free line decoding to the empty mapping. -/
theorem decoder_token_rules_witness :
    decodeFields [] ([] :: []) = decodeFields [] []
  ∧ decodeFields [] (['a', 'b'] :: []) = decodeFields [] []
  ∧ decodeFields [] ((['a'] ++ '=' :: ['b', '=', 'c']) :: [])
      = decodeFields [(['a'], ['b', '=', 'c'])] []
  ∧ split_fix_message ("foo bar".data) = [] :=
  ⟨(decoder_token_rules [] [] [] [] []).1,
   (decoder_token_rules [] [] [] [] []).2.1 ['a', 'b'] (by decide),
   (decoder_token_rules [] [] [] ['a'] ['b', '=', 'c']).2.2.1 (by decide),
   (decoder_token_rules ("foo bar".data) [] [] [] []).2.2.2 (by decide) (by decide)⟩

/-- C4: an ExecutionReport message emits a row only if ExecType (150),
OrdStatus (39) and OrdType (40) all equal 2; if any sub-condition fails the
message is silently dropped, leaving both the rows and the pending-order
store unchanged; in all cases the store is untouched by an execution. -/
theorem exec_qualification_filter (st : PState) (raw : Str)
    (h35 : pyGet (msgOf raw) ['3', '5'] = some ['8']) :
    (¬ Qualifies (msgOf raw) → step st raw = st)
  ∧ ((step st raw).rows ≠ st.rows → Qualifies (msgOf raw))
  ∧ (step st raw).orders = st.orders := by
  refine ⟨fun hq => step_exec_fail st raw h35 hq, fun hne => ?_, ?_⟩
  · by_cases hq : Qualifies (msgOf raw)
    · exact hq
    · exact absurd (by rw [step_exec_fail st raw h35 hq]) hne
  · rcases step_orders_cases st raw with h | ⟨cl, _, hD, _, _⟩
    · exact h
    · rw [h35] at hD; simp at hD

/-- C4 witness: an execution with ExecType 1 (all else qualifying) leaves
the empty state untouched. -/
theorem exec_qualification_filter_witness :
    step { orders := [], rows := [] } ("35=8|11=A1|150=1|39=2|40=2".data)
      = { orders := [], rows := [] } :=
  (exec_qualification_filter { orders := [], rows := [] }
    ("35=8|11=A1|150=1|39=2|40=2".data) (by decide)).1 (by decide)

/-- C5: a new-order message with a non-empty correlation identifier stores
its captured fields under that identifier, overwriting whatever pending
order the store previously held for it, leaving other identifiers and the
rows unchanged; a subsequent qualifying execution for that identifier
emits a row built from the newly captured fields. -/
theorem new_order_overwrite (st : PState) (raw raw2 k : Str)
    (h35 : pyGet (msgOf raw) ['3', '5'] = some ['D'])
    (h11 : pyGet (msgOf raw) ['1', '1'] = some k) (hk : k ≠ []) :
    pyGet (step st raw).orders k = some (mkPending (msgOf raw) k)
  ∧ (∀ j, j ≠ k → pyGet (step st raw).orders j = pyGet st.orders j)
  ∧ (step st raw).rows = st.rows
  ∧ (pyGet (msgOf raw2) ['3', '5'] = some ['8'] → Qualifies (msgOf raw2) →
      pyGet (msgOf raw2) ['1', '1'] = some k →
      (step (step st raw) raw2).rows
        = st.rows ++ [mkRow k (mkPending (msgOf raw) k) (msgOf raw2)]) := by
  have h1 := step_newOrder st raw k h35 h11 hk
  refine ⟨by rw [h1]; simp [pyGet], fun j hj => ?_, by rw [h1], fun h8 hq h11b => ?_⟩
  · rw [h1]
    simp only [pyGet]
    rw [if_neg (fun e => hj e.symm)]
  · have ho : pyGet (step st raw).orders k = some (mkPending (msgOf raw) k) := by
      rw [h1]; simp [pyGet]
    rw [step_exec_match (step st raw) raw2 k (mkPending (msgOf raw) k) h8 hq h11b hk ho]
    rw [h1]

/-- C5 witness: after `dLine` then `dLine2` (same identifier A1), the
qualifying execution `eLine` emits a row built from `dLine2`'s capture. -/
theorem new_order_overwrite_witness :
    (step (step (processLines [dLine]) dLine2) eLine).rows
      = (processLines [dLine]).rows
          ++ [mkRow ("A1".data) (mkPending (msgOf dLine2) ("A1".data)) (msgOf eLine)] :=
  (new_order_overwrite (processLines [dLine]) dLine2 eLine ("A1".data)
    (by decide) (by decide) (by decide)).2.2.2 (by decide) (by decide) (by decide)

/-- C6: the row emitted for a matched fill takes symbol, side, quantity and
limit price from the pending order when that captured value is non-empty and
from the execution message otherwise; the order timestamp only from the
pending order; and the execution timestamp, average price and last market
only from the execution message, defaulting to the empty string. -/
theorem matched_row_field_fallback (st : PState) (raw cl : Str) (p : Pending)
    (h35 : pyGet (msgOf raw) ['3', '5'] = some ['8'])
    (hq : Qualifies (msgOf raw))
    (h11 : pyGet (msgOf raw) ['1', '1'] = some cl) (hcl : cl ≠ [])
    (ho : pyGet st.orders cl = some p) :
    step st raw = { st with rows := st.rows ++
      [[ cl
       , p.transactTime
       , getD (msgOf raw) ['6', '0']
       , if p.symbol ≠ [] then p.symbol else getD (msgOf raw) ['5', '5']
       , if p.side ≠ [] then p.side else getD (msgOf raw) ['5', '4']
       , if p.orderQty ≠ [] then p.orderQty else getD (msgOf raw) ['3', '8']
       , if p.limitPrice ≠ [] then p.limitPrice else getD (msgOf raw) ['4', '4']
       , getD (msgOf raw) ['6']
       , getD (msgOf raw) ['3', '0'] ]] } := by
  rw [step_exec_match st raw cl p h35 hq h11 hcl ho]
  simp [mkRow, por, ite_not]

/-- C6 witness: the matched row for `eLine` against the stored order of
`dLine`, whose captured values are all non-empty and hence all chosen. -/
theorem matched_row_field_fallback_witness :
    step st1 eLine = { st1 with rows := st1.rows ++
      [[ "A1".data
       , pd1.transactTime
       , getD (msgOf eLine) ['6', '0']
       , if pd1.symbol ≠ [] then pd1.symbol else getD (msgOf eLine) ['5', '5']
       , if pd1.side ≠ [] then pd1.side else getD (msgOf eLine) ['5', '4']
       , if pd1.orderQty ≠ [] then pd1.orderQty else getD (msgOf eLine) ['3', '8']
       , if pd1.limitPrice ≠ [] then pd1.limitPrice else getD (msgOf eLine) ['4', '4']
       , getD (msgOf eLine) ['6']
       , getD (msgOf eLine) ['3', '0'] ]] } :=
  matched_row_field_fallback st1 eLine ("A1".data) pd1
    (by decide) (by decide) (by decide) (by decide) (by decide)

/-- C7: the output is the fixed nine-column header (with exactly the column
names of the source, in order) written once before any data row, followed by
the matched rows; extending the stream only appends data rows (stream
order); a stream with no matched fill yields exactly the header row. -/
theorem emitter_header_and_rows (pre post : List Str) :
    processOutput pre = csv_header :: (processLines pre).rows
  ∧ ((processLines pre).rows = [] → processOutput pre = [csv_header])
  ∧ (∃ t, (processLines (pre ++ post)).rows = (processLines pre).rows ++ t)
  ∧ csv_header
      = [ "OrderID".data, "OrderTransactTime".data, "ExecutionTransactTime".data
        , "Symbol".data, "Side".data, "OrderQty".data, "LimitPrice".data
        , "AvgPx".data, "LastMkt".data ] := by
  refine ⟨rfl, fun h => by rw [processOutput, h], ?_, rfl⟩
  rw [processLines, processLines, List.foldl_append]
  exact foldl_rows_mono post (List.foldl step { orders := [], rows := [] } pre)

/-- C7 witness: the empty stream produces exactly the header row. -/
theorem emitter_header_and_rows_witness :
    processOutput [] = [csv_header] :=
  (emitter_header_and_rows [] []).2.1 rfl

/-- C8: a qualifying execution whose identifier has no pending order leaves
the state unchanged (dropped without error); and every row added by a line
carries an identifier captured from a new-order message strictly earlier in
the stream. -/
theorem row_requires_prior_new_order (pre : List Str) (st : PState)
    (raw k : Str) :
    (pyGet (msgOf raw) ['3', '5'] = some ['8'] → Qualifies (msgOf raw) →
      pyGet (msgOf raw) ['1', '1'] = some k → k ≠ [] →
      pyGet st.orders k = none → step st raw = st)
  ∧ (∀ r ∈ (processLines (pre ++ [raw])).rows, r ∉ (processLines pre).rows →
      ∃ l ∈ pre, pyGet (msgOf l) ['3', '5'] = some ['D'] ∧
        pyGet (msgOf l) ['1', '1'] = some (rowId r)) := by
  constructor
  · exact fun h35 hq h11 hk ho => step_exec_nomatch st raw k h35 hq h11 hk ho
  · intro r hr hnr
    have hfold : processLines (pre ++ [raw]) = step (processLines pre) raw := by
      rw [processLines, processLines, List.foldl_append]; rfl
    rw [hfold] at hr
    rcases step_rows_cases (processLines pre) raw with h | ⟨cl, p, hlook, h⟩
    · rw [h] at hr; exact absurd hr hnr
    · rw [h] at hr
      rcases List.mem_append.mp hr with hr' | hr'
      · exact absurd hr' hnr
      · have hrow : r = mkRow cl p (msgOf raw) := by simpa using hr'
        have hid : rowId r = cl := by rw [hrow]; rfl
        rcases foldl_orders_provenance pre _ cl p hlook with hbase | ⟨l, hl, hD, h11⟩
        · simp [pyGet] at hbase
        · exact ⟨l, hl, hD, by rw [hid]; exact h11⟩

/-- C8 witness: a qualifying execution against an empty store is dropped. -/
theorem row_requires_prior_new_order_witness :
    step { orders := [], rows := [] } eLine = { orders := [], rows := [] } :=
  (row_requires_prior_new_order [] { orders := [], rows := [] } eLine
    ("A1".data)).1 (by decide) (by decide) (by decide) (by decide) (by decide)

/-- C10: a correlation-identifier field that is present but empty is treated
exactly like an absent one: a new-order message stores nothing, and a
qualifying execution emits nothing — the state is unchanged either way. -/
theorem empty_correlation_id_dropped (st : PState) (raw : Str) :
    (pyGet (msgOf raw) ['3', '5'] = some ['D'] →
      (pyGet (msgOf raw) ['1', '1'] = some [] ∨ pyGet (msgOf raw) ['1', '1'] = none) →
      step st raw = st)
  ∧ (pyGet (msgOf raw) ['3', '5'] = some ['8'] → Qualifies (msgOf raw) →
      (pyGet (msgOf raw) ['1', '1'] = some [] ∨ pyGet (msgOf raw) ['1', '1'] = none) →
      step st raw = st) :=
  ⟨fun h35 h11 => step_newOrder_skip st raw h35 h11.symm,
   fun h35 hq h11 => step_exec_noid st raw h35 hq h11.symm⟩

/-- C10 witness: a new-order line whose tag 11 is present but empty stores
nothing. -/
theorem empty_correlation_id_dropped_witness :
    step { orders := [], rows := [] } ("35=D|11=|60=T0".data)
      = { orders := [], rows := [] } :=
  (empty_correlation_id_dropped { orders := [], rows := [] }
    ("35=D|11=|60=T0".data)).1 (by decide) (Or.inl (by decide))

/-- C1 counterexample: after a new order and one qualifying execution for
identifier A1 there is one row, and replaying the same qualifying execution
produces a second row — the matched pending order is reused. -/
theorem matched_order_reuse_counterexample :
    (processLines [dLine, eLine]).rows.length = 1
  ∧ (processLines [dLine, eLine, eLine]).rows.length = 2 := by
  decide

/-- C1 amended: a successful match does not remove the pending order from
the store, so a later qualifying execution with the same correlation
identifier matches the same pending order again and emits a further row. -/
theorem match_keeps_pending_order (st : PState) (raw cl : Str) (p : Pending)
    (h35 : pyGet (msgOf raw) ['3', '5'] = some ['8'])
    (hq : Qualifies (msgOf raw))
    (h11 : pyGet (msgOf raw) ['1', '1'] = some cl) (hcl : cl ≠ [])
    (ho : pyGet st.orders cl = some p) :
    (step st raw).orders = st.orders
  ∧ (step (step st raw) raw).rows
      = st.rows ++ [mkRow cl p (msgOf raw), mkRow cl p (msgOf raw)] := by
  have h1 := step_exec_match st raw cl p h35 hq h11 hcl ho
  constructor
  · rw [h1]
  · have ho2 : pyGet (step st raw).orders cl = some p := by rw [h1]; exact ho
    rw [step_exec_match (step st raw) raw cl p h35 hq h11 hcl ho2, h1]
    simp

/-- C1 amended witness: replaying `eLine` after it matched the order of
`dLine` appends the same row twice and keeps the store intact. -/
theorem match_keeps_pending_order_witness :
    (step (processLines [dLine]) eLine).orders = (processLines [dLine]).orders
  ∧ (step (step (processLines [dLine]) eLine) eLine).rows
      = (processLines [dLine]).rows
          ++ [mkRow ("A1".data) (mkPending (msgOf dLine) ("A1".data)) (msgOf eLine),
              mkRow ("A1".data) (mkPending (msgOf dLine) ("A1".data)) (msgOf eLine)] :=
  match_keeps_pending_order (processLines [dLine]) eLine ("A1".data)
    (mkPending (msgOf dLine) ("A1".data))
    (by decide) (by decide) (by decide) (by decide) (by decide)
